import Mathlib

/-!
Shallow embedding of the `brief` mail library (`src/mail/address.rs`,
`src/mail/mailbox.rs`) and proofs about its parsing, validation and
formatting behaviour.

Strings are modelled as `List Char`; Rust byte indices coincide with
character indices for the reasoning done here (only relative order and
first/last occurrence of ASCII delimiters matter).
-/

deriving instance DecidableEq for Except

namespace Brief

/-- Error type of the token validator (`InvalidPartError` in
`src/mail/validation.rs`). -/
inductive InvalidPartError where
  | empty
  | forbiddenCharacter
  deriving DecidableEq

/-- The fixed forbidden character set of the token validator:
`@`, `<`, `>`, `(`, `)` and the space. -/
def forbiddenChars : List Char := ['@', '<', '>', '(', ')', ' ']

/-- Modelled from the spec: `validate_part` lives in
`src/mail/validation.rs`, which is declared in `src/mail/mod.rs` but absent
from the sources; §4.1 of the spec gives its contract. It fails with
`Empty` on a zero-length fragment, with `ForbiddenCharacter` when the
fragment contains a character of the forbidden set, and succeeds
otherwise. -/
def validate_part (fragment : List Char) : Except InvalidPartError Unit :=
  if fragment.length = 0 then
    .error .empty
  else if fragment.any (fun c => forbiddenChars.contains c) then
    .error .forbiddenCharacter
  else
    .ok ()

/-- Error type of address parsing (`ParseAddressError` in
`src/mail/address.rs`). -/
inductive ParseAddressError where
  | missingUserOrDomain
  | invalidUser (e : InvalidPartError)
  | invalidDomain (e : InvalidPartError)
  deriving DecidableEq

/-- `Address` from `src/mail/address.rs`: a user part and a domain part. -/
structure Address where
  user : List Char
  domain : List Char
  deriving DecidableEq

/-- `Address::new_unchecked`: builds the value with no validation. -/
def Address.new_unchecked (user domain : List Char) : Address :=
  ⟨user, domain⟩

/-- `Address::try_new`: validates `user`, then `domain`, with
`validate_part`, mapping failures to `InvalidUser` / `InvalidDomain`. -/
def Address.try_new (user domain : List Char) :
    Except ParseAddressError Address :=
  match validate_part user with
  | .error e => .error (.invalidUser e)
  | .ok _ =>
    match validate_part domain with
    | .error e => .error (.invalidDomain e)
    | .ok _ => .ok (Address.new_unchecked user domain)

/-- The `Display` impl for `Address`: `user@domain`. -/
def Address.toString (a : Address) : List Char :=
  a.user ++ '@' :: a.domain

/-- Split a list at the LAST occurrence of `c`: the model of
`s.rsplitn(2, c)` as used by `Address::from_str` (there, the first
`next()` is the part after the last `c` — the domain — and the second is
everything before it — the user). Returns `none` when `c` is absent. -/
def splitLast (c : Char) : List Char → Option (List Char × List Char)
  | [] => none
  | x :: xs =>
    match splitLast c xs with
    | some (u, d) => some (x :: u, d)
    | none => if x = c then some ([], xs) else none

/-- `Address::from_str` (the `FromStr` impl): `MissingUserOrDomain` when
no `@` is present, otherwise split at the last `@` and delegate to
`try_new`. -/
def Address.from_str (s : List Char) : Except ParseAddressError Address :=
  match splitLast '@' s with
  | none => .error .missingUserOrDomain
  | some (user, domain) => Address.try_new user domain

/-! ### Facts about `splitLast` and `validate_part` -/

theorem splitLast_eq_none_iff (c : Char) (s : List Char) :
    splitLast c s = none ↔ c ∉ s := by
  induction s with
  | nil => simp [splitLast]
  | cons x xs ih =>
    simp only [splitLast]
    cases h : splitLast c xs with
    | some p => simp [← ih, h]
    | none =>
      rcases h' : decide (x = c) with _ | _ <;>
        simp_all [List.mem_cons, eq_comm]

theorem splitLast_append (c : Char) (u d : List Char) (hd : c ∉ d) :
    splitLast c (u ++ c :: d) = some (u, d) := by
  induction u with
  | nil =>
    have : splitLast c d = none := (splitLast_eq_none_iff c d).mpr hd
    simp [splitLast, this]
  | cons x xs ih =>
    simp [splitLast, ih]

theorem splitLast_sound (c : Char) (s u d : List Char)
    (h : splitLast c s = some (u, d)) : s = u ++ c :: d ∧ c ∉ d := by
  induction s generalizing u d with
  | nil => simp [splitLast] at h
  | cons x xs ih =>
    simp only [splitLast] at h
    cases h' : splitLast c xs with
    | some p =>
      obtain ⟨u', d'⟩ := p
      rw [h'] at h
      obtain ⟨rfl, rfl⟩ : x :: u' = u ∧ d' = d := by
        simpa using h
      obtain ⟨hs, hd⟩ := ih u' d' h'
      exact ⟨by simp [hs], hd⟩
    | none =>
      rw [h'] at h
      by_cases hx : x = c
      · simp only [hx, if_pos rfl, Option.some.injEq, Prod.mk.injEq] at h
        obtain ⟨rfl, rfl⟩ := h
        exact ⟨by simp [hx], (splitLast_eq_none_iff c xs).mp h'⟩
      · simp [hx] at h

theorem validate_part_ok (s : List Char) (hne : s ≠ [])
    (hfc : ∀ x ∈ s, x ∉ forbiddenChars) : validate_part s = .ok () := by
  have hlen : s.length ≠ 0 := by simpa using hne
  have h1 : ¬ ∃ x ∈ s, x ∈ forbiddenChars := by
    push_neg
    exact hfc
  simp [validate_part, hlen, h1]

theorem validate_part_forbidden (s : List Char)
    (h : ∃ x ∈ s, x ∈ forbiddenChars) :
    validate_part s = .error .forbiddenCharacter := by
  have hlen : s.length ≠ 0 := by
    intro h0
    rw [List.length_eq_zero] at h0
    obtain ⟨x, hx, _⟩ := h
    simp [h0] at hx
  simp [validate_part, hlen, h]

theorem validate_part_empty_iff (s : List Char) :
    validate_part s = .error .empty ↔ s = [] := by
  constructor
  · intro h
    by_contra hne
    have hlen : s.length ≠ 0 := by simpa using hne
    simp only [validate_part, hlen, if_false] at h
    split at h <;> simp_all
  · intro h
    simp [h, validate_part]

/-! ### Mailboxes (`src/mail/mailbox.rs`) -/

/-- Error type of mailbox parsing (`ParseMailboxError` in
`src/mail/mailbox.rs`). -/
inductive ParseMailboxError where
  | missingAngleBrackets
  | missingOpeningAngleBracket
  | missingClosingAngleBracket
  | wrongOrderAngleBrackets
  | invalidName (e : InvalidPartError)
  | invalidAddress (e : ParseAddressError)
  deriving DecidableEq

/-- `Mailbox`: an optional display name and an address. -/
structure Mailbox where
  name : Option (List Char)
  address : Address
  deriving DecidableEq

/-- `Mailbox::try_new`: when a name is given it is run through
`validate_part`, failures mapped to `InvalidName`; a `None` name is always
accepted. -/
def Mailbox.try_new (name : Option (List Char)) (address : Address) :
    Except ParseMailboxError Mailbox :=
  match name with
  | some n =>
    match validate_part n with
    | .error e => .error (.invalidName e)
    | .ok _ => .ok ⟨some n, address⟩
  | none => .ok ⟨none, address⟩

/-- `Mailbox::new_unchecked`: despite its `Result` return type it performs
no validation and always returns `Ok`. -/
def Mailbox.new_unchecked (name : Option (List Char)) (address : Address) :
    Except ParseMailboxError Mailbox :=
  .ok ⟨name, address⟩

/-- Rust `str::trim` restricted to the ASCII whitespace relevant here
(`Char.isWhitespace` covers space, tab, CR and LF; Rust trims the full
Unicode `White_Space` set, of which these are the cases that occur). -/
def trim (s : List Char) : List Char :=
  ((s.dropWhile Char.isWhitespace).reverse.dropWhile Char.isWhitespace).reverse

/-- Index of the first occurrence of `c` (Rust `str::find` on a char
pattern), `none` when absent. -/
def idxOf? (c : Char) : List Char → Option Nat
  | [] => none
  | x :: xs => if x = c then some 0 else (idxOf? c xs).map (· + 1)

/-- The `Display` impl for `Mailbox`: `name <user@domain>` when a name is
present, else `<user@domain>`. -/
def Mailbox.toString (m : Mailbox) : List Char :=
  match m.name with
  | some n => n ++ ' ' :: '<' :: m.address.toString ++ ['>']
  | none => '<' :: m.address.toString ++ ['>']

/-- `Mailbox::from_str`: the four-way branch on the first `<` and the
first `>`.  In the both-present branch, `s.split_once('<')` yields
`(s.take left, s.drop (left+1))` and the subsequent
`rest.split_once('>')` yields the prefix of `rest` before its first `>`;
both `unwrap`s in the source are safe there because `left ≤ right` and
`left ≠ right` put a `>` strictly after the first `<`. -/
def Mailbox.from_str (s : List Char) : Except ParseMailboxError Mailbox :=
  match idxOf? '<' s, idxOf? '>' s with
  | none, some _ => .error .missingOpeningAngleBracket
  | some _, none => .error .missingClosingAngleBracket
  | some left, some right =>
    if left > right then .error .wrongOrderAngleBrackets
    else
      -- name_str = s.take left, rest = s.drop (left + 1),
      -- address_str = rest.takeWhile (· ≠ '>'),
      -- name = if name_str.isEmpty then none else some name_str;
      -- the source computes `name` before parsing the address, but both are
      -- pure, so the order of the two computations is unobservable
      match Address.from_str ((s.drop (left + 1)).takeWhile (fun c => c ≠ '>')) with
      | .error e => .error (.invalidAddress e)
      | .ok address =>
        .ok ⟨(if (s.take left).isEmpty then none
              else some (s.take left)).map trim, address⟩
  | none, none =>
    if s.contains ' ' then .error .missingAngleBrackets
    else
      match Address.from_str s with
      | .error e => .error (.invalidAddress e)
      | .ok address => .ok ⟨none, address⟩

/-- Rust `str::split(",")`: always yields at least one segment; an input
without the separator yields a single segment, and separators at the ends
yield empty segments. -/
def splitAll (c : Char) : List Char → List (List Char)
  | [] => [[]]
  | x :: xs =>
    if x = c then [] :: splitAll c xs
    else
      match splitAll c xs with
      | [] => [[x]] -- unreachable: `splitAll` never returns `[]`
      | seg :: rest => (x :: seg) :: rest

/-- Rust `collect::<Result<Vec<_>, _>>()`: stop at the first error,
otherwise keep all payloads in order. -/
def collectExcept {ε α : Type} : List (Except ε α) → Except ε (List α)
  | [] => .ok []
  | .error e :: _ => .error e
  | .ok a :: rest => (collectExcept rest).map (a :: ·)

/-- `Mailboxes::from_str`: split on `,`, trim each segment, parse each as
a `Mailbox` and collect fail-fast. -/
def Mailboxes.from_str (s : List Char) :
    Except ParseMailboxError (List Mailbox) :=
  collectExcept ((splitAll ',' s).map (fun m => Mailbox.from_str (trim m)))

/-- The `Display` impl for `Mailboxes`: each mailbox is written, with
`", "` after it whenever another follows. -/
def Mailboxes.toString : List Mailbox → List Char
  | [] => []
  | m :: rest =>
    Mailbox.toString m ++ (if rest.isEmpty then [] else [',', ' ']) ++
      Mailboxes.toString rest

/-- Does a mailbox-parse result carry the `InvalidName` error kind? -/
def isInvalidNameError (r : Except ParseMailboxError Mailbox) : Bool :=
  match r with
  | .error (.invalidName _) => true
  | _ => false

/-! ### Behaviour of `Address.try_new` -/

theorem try_new_invalidUser_iff (u d : List Char) (e : InvalidPartError) :
    Address.try_new u d = .error (.invalidUser e) ↔
      validate_part u = .error e := by
  unfold Address.try_new
  cases hu : validate_part u with
  | error e' => simp
  | ok _ => cases hd : validate_part d <;> simp

theorem try_new_invalidDomain_iff (u d : List Char) (e : InvalidPartError) :
    Address.try_new u d = .error (.invalidDomain e) ↔
      validate_part u = .ok () ∧ validate_part d = .error e := by
  unfold Address.try_new
  cases hu : validate_part u with
  | error e' => simp
  | ok v =>
    cases v
    cases hd : validate_part d <;> simp

theorem try_new_ne_missing (u d : List Char) :
    Address.try_new u d ≠ .error .missingUserOrDomain := by
  unfold Address.try_new
  cases hu : validate_part u with
  | error e' => simp
  | ok _ => cases hd : validate_part d <;> simp

/-! ## Claims -/

/-- C1, counterexample: `Address::try_new("", "@domain.com")` does NOT
fail with `InvalidDomain(ForbiddenCharacter)`. -/
theorem C1_counterexample :
    decide (Address.try_new "".toList "@domain.com".toList =
      .error (.invalidDomain .forbiddenCharacter)) = false := by decide

/-- C1 (amended): `Address::try_new("", "@domain.com")` fails with the
exact error kind `InvalidUser(Empty)`: the empty user part is validated
first and fails before the domain is ever examined. -/
theorem C1_empty_user_wins :
    Address.try_new "".toList "@domain.com".toList =
      .error (.invalidUser .empty) := by decide

/-- C3: `Address::try_new` validates the user before the domain — an
invalid user yields `InvalidUser(inner)` whatever the domain is, and
`InvalidDomain(inner)` occurs only when the user is valid and the domain
is not; consequently `Address::parse("@")` splits into an empty user and
an empty domain and returns `InvalidUser(Empty)`. -/
theorem C3_user_validated_first :
    (∀ u d e, validate_part u = .error e →
      Address.try_new u d = .error (.invalidUser e)) ∧
    (∀ u d e, Address.try_new u d = .error (.invalidDomain e) →
      validate_part u = .ok () ∧ validate_part d = .error e) ∧
    Address.from_str "@".toList = .error (.invalidUser .empty) := by
  refine ⟨?_, ?_, by decide⟩
  · intro u d e h
    exact (try_new_invalidUser_iff u d e).mpr h
  · intro u d e h
    exact (try_new_invalidDomain_iff u d e).mp h

/-- C3 witness: an invalid user (`(`) together with an invalid domain
(empty) yields `InvalidUser`, not `InvalidDomain`. -/
theorem C3_witness :
    validate_part "(".toList = .error .forbiddenCharacter ∧
    Address.try_new "(".toList "".toList =
      .error (.invalidUser .forbiddenCharacter) :=
  ⟨by decide, C3_user_validated_first.1 "(".toList "".toList
    .forbiddenCharacter (by decide)⟩

/-- C9: the token validator fails with `Empty` exactly on the zero-length
fragment, fails with `ForbiddenCharacter` whenever the fragment contains
one of `@ < > ( )` or a space, succeeds otherwise, and the identical rule
is what `Address::try_new` applies to user and domain parts and
`Mailbox::try_new` applies to display names. -/
theorem C9_token_validator :
    (∀ f, validate_part f = .error .empty ↔ f = []) ∧
    (∀ f, (∃ x ∈ f, x ∈ forbiddenChars) →
      validate_part f = .error .forbiddenCharacter) ∧
    (∀ f, f ≠ [] → (∀ x ∈ f, x ∉ forbiddenChars) →
      validate_part f = .ok ()) ∧
    forbiddenChars = ['@', '<', '>', '(', ')', ' '] ∧
    (∀ u d e, Address.try_new u d = .error (.invalidUser e) ↔
      validate_part u = .error e) ∧
    (∀ u d e, Address.try_new u d = .error (.invalidDomain e) ↔
      validate_part u = .ok () ∧ validate_part d = .error e) ∧
    (∀ n a e, Mailbox.try_new (some n) a = .error (.invalidName e) ↔
      validate_part n = .error e) := by
  refine ⟨validate_part_empty_iff, validate_part_forbidden, validate_part_ok,
    rfl, try_new_invalidUser_iff, try_new_invalidDomain_iff, ?_⟩
  intro n a e
  unfold Mailbox.try_new
  cases hn : validate_part n <;> simp [hn]

/-- C9 witness: a fragment containing `@` is rejected as
`ForbiddenCharacter`. -/
theorem C9_witness :
    (∃ x ∈ "a@b".toList, x ∈ forbiddenChars) ∧
    validate_part "a@b".toList = .error .forbiddenCharacter :=
  ⟨by decide, C9_token_validator.2.1 "a@b".toList (by decide)⟩

/-- C5: `Address::parse` fails with `MissingUserOrDomain` exactly when the
input has no `@`; when an `@` is present it splits at the last one — the
user is everything before it, the domain everything after it (so the
domain holds no further `@`) — and returns `Address::try_new` of that
split. -/
theorem C5_parse_splits_at_last_at :
    (∀ s, Address.from_str s = .error .missingUserOrDomain ↔ '@' ∉ s) ∧
    (∀ u d, '@' ∉ d →
      Address.from_str (u ++ '@' :: d) = Address.try_new u d) ∧
    (∀ s u d, splitLast '@' s = some (u, d) →
      s = u ++ '@' :: d ∧ '@' ∉ d ∧ Address.from_str s = Address.try_new u d) := by
  refine ⟨?_, ?_, ?_⟩
  · intro s
    unfold Address.from_str
    cases h : splitLast '@' s with
    | none =>
      simp [(splitLast_eq_none_iff '@' s).mp h]
    | some p =>
      obtain ⟨u, d⟩ := p
      obtain ⟨hs, _⟩ := splitLast_sound '@' s u d h
      have hmem : '@' ∈ s := by simp [hs]
      simp only [iff_iff_implies_and_implies]
      exact ⟨fun habs => absurd habs (try_new_ne_missing u d),
        fun habs => absurd hmem habs⟩
  · intro u d hd
    unfold Address.from_str
    rw [splitLast_append '@' u d hd]
  · intro s u d h
    obtain ⟨hs, hd⟩ := splitLast_sound '@' s u d h
    refine ⟨hs, hd, ?_⟩
    unfold Address.from_str
    rw [h]

/-- C5 witness: `user@domain.com` splits into `user` and `domain.com`. -/
theorem C5_witness :
    ('@' ∉ "domain.com".toList) ∧
    Address.from_str ("user".toList ++ '@' :: "domain.com".toList) =
      Address.try_new "user".toList "domain.com".toList :=
  ⟨by decide, C5_parse_splits_at_last_at.2.1 "user".toList "domain.com".toList
    (by decide)⟩

/-- C4: for every non-empty user and domain free of forbidden characters,
`Address::try_new` succeeds with exactly those fields, `to_string()`
yields `user ++ "@" ++ domain`, and re-parsing that string returns the
same address (round-trip law). -/
theorem C4_round_trip (user domain : List Char)
    (hu : user ≠ []) (hd : domain ≠ [])
    (hfu : ∀ x ∈ user, x ∉ forbiddenChars)
    (hfd : ∀ x ∈ domain, x ∉ forbiddenChars) :
    Address.try_new user domain = .ok ⟨user, domain⟩ ∧
    Address.toString ⟨user, domain⟩ = user ++ '@' :: domain ∧
    Address.from_str (Address.toString ⟨user, domain⟩) = .ok ⟨user, domain⟩ := by
  have hvu := validate_part_ok user hu hfu
  have hvd := validate_part_ok domain hd hfd
  have h1 : Address.try_new user domain = .ok ⟨user, domain⟩ := by
    unfold Address.try_new
    rw [hvu, hvd]
    rfl
  have hdm : '@' ∉ domain := fun hmem => hfd '@' hmem (by decide)
  have h3 : Address.from_str (user ++ '@' :: domain) =
      Address.try_new user domain := by
    unfold Address.from_str
    rw [splitLast_append '@' user domain hdm]
  exact ⟨h1, rfl, by rw [show Address.toString ⟨user, domain⟩ =
    user ++ '@' :: domain from rfl, h3, h1]⟩

/-- C4 witness: the round trip at `user@domain.com`. -/
theorem C4_witness :
    ("user".toList ≠ [] ∧ "domain.com".toList ≠ [] ∧
      (∀ x ∈ "user".toList, x ∉ forbiddenChars) ∧
      (∀ x ∈ "domain.com".toList, x ∉ forbiddenChars)) ∧
    Address.try_new "user".toList "domain.com".toList =
      .ok ⟨"user".toList, "domain.com".toList⟩ ∧
    Address.toString ⟨"user".toList, "domain.com".toList⟩ =
      "user".toList ++ '@' :: "domain.com".toList ∧
    Address.from_str (Address.toString ⟨"user".toList, "domain.com".toList⟩) =
      .ok ⟨"user".toList, "domain.com".toList⟩ :=
  ⟨⟨by decide, by decide, by decide, by decide⟩,
    C4_round_trip "user".toList "domain.com".toList
      (by decide) (by decide) (by decide) (by decide)⟩

/-- C10: `Mailbox::new_unchecked` has a `Result` return type but is
infallible: it always returns `Ok` of a mailbox with exactly the given
fields and performs no validation — here it accepts the name `(` that
`validate_part` rejects. -/
theorem C10_new_unchecked_infallible :
    (∀ name address, Mailbox.new_unchecked name address = .ok ⟨name, address⟩) ∧
    validate_part "(".toList = .error .forbiddenCharacter ∧
    Mailbox.new_unchecked (some "(".toList) ⟨"u".toList, "d".toList⟩ =
      .ok ⟨some "(".toList, ⟨"u".toList, "d".toList⟩⟩ :=
  ⟨fun _ _ => rfl, by decide, rfl⟩

theorem idxOf?_eq_none_iff (c : Char) (s : List Char) :
    idxOf? c s = none ↔ c ∉ s := by
  induction s with
  | nil => simp [idxOf?]
  | cons x xs ih =>
    simp only [idxOf?]
    by_cases hx : x = c
    · simp [hx]
    · have hcx : ¬ c = x := fun h => hx h.symm
      simp [hx, Option.map_eq_none', ih, hcx]

theorem from_str_wrong_order (s : List Char) (left right : Nat)
    (h1 : idxOf? '<' s = some left) (h2 : idxOf? '>' s = some right)
    (h3 : left > right) :
    Mailbox.from_str s = .error .wrongOrderAngleBrackets := by
  unfold Mailbox.from_str
  rw [h1, h2]
  simp [h3]

theorem from_str_both_brackets (s : List Char) (left right : Nat)
    (h1 : idxOf? '<' s = some left) (h2 : idxOf? '>' s = some right)
    (h3 : ¬ left > right) :
    Mailbox.from_str s =
      match Address.from_str ((s.drop (left + 1)).takeWhile
          (fun c => c ≠ '>')) with
      | .error e => .error (.invalidAddress e)
      | .ok address =>
        .ok ⟨(if (s.take left).isEmpty then none
              else some (s.take left)).map trim, address⟩ := by
  unfold Mailbox.from_str
  rw [h1, h2]
  simp [h3]

theorem from_str_no_brackets (s : List Char)
    (h1 : idxOf? '<' s = none) (h2 : idxOf? '>' s = none) :
    Mailbox.from_str s =
      if ' ' ∈ s then .error .missingAngleBrackets
      else
        match Address.from_str s with
        | .error e => .error (.invalidAddress e)
        | .ok a => .ok ⟨none, a⟩ := by
  unfold Mailbox.from_str
  rw [h1, h2]
  simp

/-- C2 counterexample: on `" <u@d>"` the name part is whitespace-only, so
the claim demands `name = None`, but the parse yields `Some("")`. -/
theorem C2_counterexample :
    decide ((Mailbox.from_str " <u@d>".toList).map Mailbox.name =
      .ok none) = false := by decide

/-- C2 (amended): in the both-brackets branch the portion of the input
before the first `<` (`name_part`) becomes `None` exactly when it is
empty BEFORE trimming; otherwise the name is `Some(name_part.trim())` —
in particular a whitespace-only `name_part` yields `Some("")` rather than
`None`, because emptiness is tested before trimming. -/
theorem C2_name_part_trimming (s : List Char) (mb : Mailbox) (left : Nat)
    (h1 : idxOf? '<' s = some left) (h2 : Mailbox.from_str s = .ok mb) :
    mb.name = if (s.take left).isEmpty then none
              else some (trim (s.take left)) := by
  cases h3 : idxOf? '>' s with
  | none =>
    unfold Mailbox.from_str at h2
    rw [h1, h3] at h2
    cases h2
  | some right =>
    by_cases hlr : left > right
    · rw [from_str_wrong_order s left right h1 h3 hlr] at h2
      cases h2
    · rw [from_str_both_brackets s left right h1 h3 hlr] at h2
      cases ha : Address.from_str ((s.drop (left + 1)).takeWhile
          (fun c => c ≠ '>')) with
      | error e => rw [ha] at h2; cases h2
      | ok a =>
        rw [ha] at h2
        obtain rfl : Mailbox.mk ((if (s.take left).isEmpty then none
            else some (s.take left)).map trim) a = mb := by
          simpa using h2
        by_cases hempty : (s.take left).isEmpty <;> simp [hempty]

/-- C2 witness: `" <u@d>"` has its first `<` at index 1, parses
successfully, and the resulting name is `Some(trim(" "))`, that is
`Some("")`. -/
theorem C2_witness :
    (idxOf? '<' " <u@d>".toList = some 1 ∧
      Mailbox.from_str " <u@d>".toList =
        .ok ⟨some [], ⟨"u".toList, "d".toList⟩⟩) ∧
    (Mailbox.mk (some []) ⟨"u".toList, "d".toList⟩).name =
      (if (" <u@d>".toList.take 1).isEmpty then none
       else some (trim (" <u@d>".toList.take 1))) :=
  ⟨⟨by decide, by decide⟩,
    C2_name_part_trimming " <u@d>".toList ⟨some [], ⟨"u".toList, "d".toList⟩⟩
      1 (by decide) (by decide)⟩

/-- C6: `Mailbox::parse` is a 4-branch decision on the two bracket
characters: `>` without `<` gives `MissingOpeningAngleBracket`, `<`
without `>` gives `MissingClosingAngleBracket`, both present with the
first `<` after the first `>` gives `WrongOrderAngleBrackets`, and with
neither present a space in the text gives `MissingAngleBrackets` while a
space-free text is parsed as a bare address with no name, address errors
wrapped as `InvalidAddress`. -/
theorem C6_parse_branches (s : List Char) :
    ('<' ∉ s → '>' ∈ s →
      Mailbox.from_str s = .error .missingOpeningAngleBracket) ∧
    ('<' ∈ s → '>' ∉ s →
      Mailbox.from_str s = .error .missingClosingAngleBracket) ∧
    (∀ left right, idxOf? '<' s = some left → idxOf? '>' s = some right →
      left > right → Mailbox.from_str s = .error .wrongOrderAngleBrackets) ∧
    ('<' ∉ s → '>' ∉ s → ' ' ∈ s →
      Mailbox.from_str s = .error .missingAngleBrackets) ∧
    ('<' ∉ s → '>' ∉ s → ' ' ∉ s →
      Mailbox.from_str s =
        match Address.from_str s with
        | .error e => .error (.invalidAddress e)
        | .ok a => .ok ⟨none, a⟩) := by
  refine ⟨?_, ?_, ?_, ?_, ?_⟩
  · intro h1 h2
    have e1 : idxOf? '<' s = none := (idxOf?_eq_none_iff '<' s).mpr h1
    obtain ⟨r, e2⟩ : ∃ r, idxOf? '>' s = some r := by
      cases h : idxOf? '>' s with
      | none => exact absurd ((idxOf?_eq_none_iff '>' s).mp h) (by simpa using h2)
      | some r => exact ⟨r, rfl⟩
    unfold Mailbox.from_str
    rw [e1, e2]
  · intro h1 h2
    have e2 : idxOf? '>' s = none := (idxOf?_eq_none_iff '>' s).mpr h2
    obtain ⟨l, e1⟩ : ∃ l, idxOf? '<' s = some l := by
      cases h : idxOf? '<' s with
      | none => exact absurd ((idxOf?_eq_none_iff '<' s).mp h) (by simpa using h1)
      | some l => exact ⟨l, rfl⟩
    unfold Mailbox.from_str
    rw [e1, e2]
  · intro left right e1 e2 hlr
    exact from_str_wrong_order s left right e1 e2 hlr
  · intro h1 h2 h3
    have e1 : idxOf? '<' s = none := (idxOf?_eq_none_iff '<' s).mpr h1
    have e2 : idxOf? '>' s = none := (idxOf?_eq_none_iff '>' s).mpr h2
    rw [from_str_no_brackets s e1 e2, if_pos h3]
  · intro h1 h2 h3
    have e1 : idxOf? '<' s = none := (idxOf?_eq_none_iff '<' s).mpr h1
    have e2 : idxOf? '>' s = none := (idxOf?_eq_none_iff '>' s).mpr h2
    rw [from_str_no_brackets s e1 e2, if_neg h3]

/-- C6 witness: the four error branches at concrete inputs (bracket
fixtures from the repository's own tests). -/
theorem C6_witness :
    ('<' ∉ "u@d>".toList ∧ '>' ∈ "u@d>".toList) ∧
    Mailbox.from_str "u@d>".toList = .error .missingOpeningAngleBracket :=
  ⟨⟨by decide, by decide⟩,
    (C6_parse_branches "u@d>".toList).1 (by decide) (by decide)⟩

/-- C8: `Mailbox::parse` never returns `InvalidName` — the bracketed path
accepts any non-empty name without running the token validator, so
`"( <u@d>"` parses with name `Some("(")` even though `Mailbox::try_new`
rejects the same name as `InvalidName(ForbiddenCharacter)`. -/
theorem C8_parse_never_invalid_name :
    (∀ s, isInvalidNameError (Mailbox.from_str s) = false) ∧
    Mailbox.from_str "( <u@d>".toList =
      .ok ⟨some "(".toList, ⟨"u".toList, "d".toList⟩⟩ ∧
    Mailbox.try_new (some "(".toList) ⟨"u".toList, "d".toList⟩ =
      .error (.invalidName .forbiddenCharacter) := by
  refine ⟨?_, by decide, by decide⟩
  intro s
  cases h1 : idxOf? '<' s with
  | none =>
    cases h2 : idxOf? '>' s with
    | none =>
      rw [from_str_no_brackets s h1 h2]
      by_cases hsp : ' ' ∈ s
      · simp [hsp, isInvalidNameError]
      · cases ha : Address.from_str s <;> simp [hsp, ha, isInvalidNameError]
    | some r =>
      unfold Mailbox.from_str
      rw [h1, h2]
      rfl
  | some l =>
    cases h2 : idxOf? '>' s with
    | none =>
      unfold Mailbox.from_str
      rw [h1, h2]
      rfl
    | some r =>
      by_cases hlr : l > r
      · rw [from_str_wrong_order s l r h1 h2 hlr]
        rfl
      · rw [from_str_both_brackets s l r h1 h2 hlr]
        cases ha : Address.from_str ((s.drop (l + 1)).takeWhile
            (fun c => c ≠ '>')) <;> simp [ha, isInvalidNameError]

/-! ### Mailbox lists -/

theorem splitAll_ne_nil (c : Char) (s : List Char) : splitAll c s ≠ [] := by
  cases s with
  | nil => simp [splitAll]
  | cons x xs =>
    simp only [splitAll]
    split
    · simp
    · split <;> simp

theorem collectExcept_map_ok {ε α β : Type} (f : α → Except ε β)
    (l : List α) (r : List β) :
    collectExcept (l.map f) = .ok r ↔
      List.Forall₂ (fun a b => f a = .ok b) l r := by
  induction l generalizing r with
  | nil =>
    constructor
    · intro h
      cases r with
      | nil => exact List.Forall₂.nil
      | cons b rs => simp [collectExcept] at h
    · intro h
      cases h
      simp [collectExcept]
  | cons a l ih =>
    constructor
    · intro h
      simp only [List.map_cons] at h
      cases hfa : f a with
      | error e => rw [hfa] at h; cases h
      | ok b =>
        rw [hfa] at h
        simp only [collectExcept] at h
        cases hc : collectExcept (l.map f) with
        | error e => rw [hc] at h; cases h
        | ok rs =>
          rw [hc] at h
          obtain rfl : b :: rs = r := by simpa [Except.map] using h
          exact List.Forall₂.cons hfa ((ih rs).mp hc)
    · intro h
      cases h with
      | cons hab htail =>
        rename_i b rs
        simp only [List.map_cons, hab, collectExcept, (ih rs).mpr htail]
        rfl

theorem collectExcept_map_error {ε α β : Type} (f : α → Except ε β)
    (l : List α) (e : ε) (h : collectExcept (l.map f) = .error e) :
    ∃ pre a post, l = pre ++ a :: post ∧
      (∀ x ∈ pre, ∃ b, f x = .ok b) ∧ f a = .error e := by
  induction l with
  | nil => simp [collectExcept] at h
  | cons a l ih =>
    simp only [List.map_cons] at h
    cases hfa : f a with
    | error e' =>
      rw [hfa] at h
      obtain rfl : e' = e := by
        simpa [collectExcept] using h
      exact ⟨[], a, l, rfl, by simp, hfa⟩
    | ok b =>
      rw [hfa] at h
      simp only [collectExcept] at h
      cases hc : collectExcept (l.map f) with
      | ok rs => rw [hc] at h; cases h
      | error e'' =>
        rw [hc] at h
        obtain rfl : e'' = e := by
          simpa [Except.map] using h
        obtain ⟨pre, a', post, hsplit, hpre, herr⟩ := ih hc
        refine ⟨a :: pre, a', post, by simp [hsplit], ?_, herr⟩
        intro x hx
        rcases List.mem_cons.mp hx with rfl | hx'
        · exact ⟨b, hfa⟩
        · exact hpre x hx'

theorem toString_join_comma (l : List Mailbox) :
    Mailboxes.toString l = List.intercalate [',', ' '] (l.map Mailbox.toString) := by
  induction l with
  | nil => simp [Mailboxes.toString, List.intercalate]
  | cons m rest ih =>
    cases rest with
    | nil => simp [Mailboxes.toString, List.intercalate]
    | cons m2 rest2 =>
      rw [show Mailboxes.toString (m :: m2 :: rest2) =
        Mailbox.toString m ++ [',', ' '] ++ Mailboxes.toString (m2 :: rest2)
        from rfl, ih]
      simp [List.intercalate, List.intersperse_cons_cons, List.append_assoc]

/-- C7: `Mailboxes::parse` splits the input on `,`, trims every segment
and parses it as a `Mailbox`: on success the mailboxes correspond to the
segments in input order and there is at least one of them (the comma split
always yields a segment, and an empty segment fails rather than being
dropped); on failure the returned error is that of the first failing
segment, every earlier segment having parsed; and `Mailboxes::format`
joins the formatted elements with `", "` in list order. -/
theorem C7_mailboxes_parse_format :
    (∀ s l, Mailboxes.from_str s = .ok l →
      List.Forall₂ (fun seg mb => Mailbox.from_str (trim seg) = .ok mb)
        (splitAll ',' s) l) ∧
    (∀ s l, Mailboxes.from_str s = .ok l → 1 ≤ l.length) ∧
    (∀ s e, Mailboxes.from_str s = .error e →
      ∃ pre seg post, splitAll ',' s = pre ++ seg :: post ∧
        (∀ x ∈ pre, ∃ mb, Mailbox.from_str (trim x) = .ok mb) ∧
        Mailbox.from_str (trim seg) = .error e) ∧
    Mailbox.from_str (trim []) = .error (.invalidAddress .missingUserOrDomain) ∧
    (∀ l, Mailboxes.toString l =
      List.intercalate [',', ' '] (l.map Mailbox.toString)) := by
  refine ⟨?_, ?_, ?_, by decide, toString_join_comma⟩
  · intro s l h
    exact (collectExcept_map_ok (fun m => Mailbox.from_str (trim m))
      (splitAll ',' s) l).mp h
  · intro s l h
    have hf := (collectExcept_map_ok (fun m => Mailbox.from_str (trim m))
      (splitAll ',' s) l).mp h
    have hlen := List.Forall₂.length_eq hf
    have hpos : 0 < (splitAll ',' s).length :=
      List.length_pos.mpr (splitAll_ne_nil ',' s)
    omega
  · intro s e h
    exact collectExcept_map_error (fun m => Mailbox.from_str (trim m))
      (splitAll ',' s) e h

/-- C7 witness: `"u@d, x"` fails on its second segment (`"x"` has no `@`),
after the first segment parsed; its split has the first segment as the
sole successful prefix. -/
theorem C7_witness :
    Mailboxes.from_str "u@d, x".toList = .error
      (.invalidAddress .missingUserOrDomain) ∧
    (∃ pre seg post, splitAll ',' "u@d, x".toList = pre ++ seg :: post ∧
      (∀ x ∈ pre, ∃ mb, Mailbox.from_str (trim x) = .ok mb) ∧
      Mailbox.from_str (trim seg) = .error
        (.invalidAddress .missingUserOrDomain)) :=
  ⟨by decide, C7_mailboxes_parse_format.2.2.1 "u@d, x".toList
    (.invalidAddress .missingUserOrDomain) (by decide)⟩

end Brief
